import Mathlib

/-!
Verification development for the e-Gov statute search front end
(`src/streamlit_app.py`).  The Python functions with real logic are
shallowly embedded as executable Lean definitions over `List Char`
(strings), an XML-tree type (`Element`), and a session-state record.
Regular-expression based code is embedded as hand-compiled scanners that
follow the backtracking semantics of the concrete patterns used in the
source.
-/

namespace EGov

/-- Whitespace test modelling Python's `\s` character class and `str.strip`
on the character repertoire this application handles: the ASCII whitespace
characters plus NO-BREAK SPACE and IDEOGRAPHIC SPACE. -/
def isWs (c : Char) : Bool :=
  c = ' ' || c = '\t' || c = '\n' || c = '\r' || c = '\x0b' || c = '\x0c' ||
  c = ' ' || c = '　'

/-- Left part of Python `str.strip`. -/
def trimLeft (l : List Char) : List Char := l.dropWhile isWs

/-- Right part of Python `str.strip`. -/
def trimRight : List Char → List Char
  | [] => []
  | a :: u =>
    match trimRight u with
    | [] => if isWs a then [] else [a]
    | r => a :: r

/-- Python `str.strip()`. -/
def trim (l : List Char) : List Char := trimRight (trimLeft l)

/-- Python `re.sub(r"\s+", " ", s)`: every maximal whitespace run becomes a
single space.  Fuel-indexed so that the definition reduces by structural
recursion; every step consumes at least one character, so fuel = input
length always suffices. -/
def collapseWsF : Nat → List Char → List Char
  | 0, _ => []
  | f + 1, l =>
    match l with
    | [] => []
    | c :: r =>
      if isWs c then ' ' :: collapseWsF f (r.dropWhile isWs)
      else c :: collapseWsF f r

def collapseWs (l : List Char) : List Char := collapseWsF l.length l

/-- A parsed XML element, as produced by `xml.etree.ElementTree`: a tag, the
element's own text (possibly absent), and its children in document order. -/
inductive Element where
  | mk (tag : String) (text : Option (List Char)) (children : List Element)

def Element.tag : Element → String
  | .mk t _ _ => t

def Element.text : Element → Option (List Char)
  | .mk _ x _ => x

def Element.children : Element → List Element
  | .mk _ _ cs => cs

-- `element.iter()`: the element itself followed by all descendants in
-- document (pre-)order.
mutual
def iterElems : Element → List Element
  | .mk t x cs => .mk t x cs :: iterList cs
def iterList : List Element → List Element
  | [] => []
  | e :: es => iterElems e ++ iterList es
end

/-- `ElementTree.find("./Tag")`: first direct child with the given tag. -/
def findChild (e : Element) (tag : String) : Option Element :=
  e.children.find? fun c => c.tag == tag

/-- `ElementTree.find("./T1/T2")`: first grandchild reached through a `T1`
child, children scanned in document order. -/
def findPath2 (root : Element) (t1 t2 : String) : Option Element :=
  (((root.children.filter fun c => c.tag == t1).map fun c =>
      c.children.filter fun g => g.tag == t2).flatten).head?

/-- The `./Result/Code` text read by `parse_api_response` (line 50):
`node.text` when the node exists (which may itself be Python `None`),
otherwise the default `"-1"`. -/
def resultCodeOf (root : Element) : Option (List Char) :=
  match findPath2 root "Result" "Code" with
  | some n => n.text
  | none => some "-1".toList

/-- The `./Result/Message` text read by `parse_api_response` (line 51). -/
def messageOf (root : Element) : Option (List Char) :=
  match findPath2 root "Result" "Message" with
  | some n => n.text
  | none => some "No message provided".toList

/-- `parse_api_response` (src/streamlit_app.py lines 45-60), on a document
already parsed by `ET.fromstring` (parse failures take the exception
branches and are outside this value-level model).  Returns
`(payload, resultCode, message)`. -/
def parse_api_response (root : Element) :
    Option Element × Option (List Char) × Option (List Char) :=
  let result_code := resultCodeOf root
  let message := messageOf root
  if result_code ≠ some "0".toList then (none, result_code, message)
  else
    match root.children.find? (fun c => c.tag == "ApplData") with
    | none =>
      (none, some "0".toList,
        some "API returned success code 0 but no ApplData found.".toList)
    | some app_data => (some app_data, result_code, message)

/-- The allow-list of structural tags of `fetch_law_data_for_ai`
(src/streamlit_app.py line 108). -/
def relevantTags : List String :=
  ["LawTitle", "ArticleTitle", "ParagraphSentence", "ItemSentence",
   "Subitem1Sentence", "Subitem2Sentence", "SupplProvisionLabel",
   "SupplProvisionSentence", "Sentence"]

/-- The allow-list walk of `fetch_law_data_for_ai` (lines 110-113): document
order, tag in the allow-list, non-empty text, stripped, non-empty after
stripping. -/
def extractedTexts (app_data : Element) : List (List Char) :=
  (iterElems app_data).filterMap fun e =>
    if e.tag ∈ relevantTags then
      match e.text with
      | some t =>
        if t ≠ [] then
          let s := trim t
          if s ≠ [] then some s else none
        else none
      | none => none
    else none

def MAX_CHARS : Nat := 30000

/-- The extraction/cleaning/truncation core of `fetch_law_data_for_ai`
(src/streamlit_app.py lines 108-125), after the payload has been obtained:
allow-list walk, newline join, whitespace collapse, strip, truncation - and
the `LawFullText` raw fallback, which the source returns without applying
`MAX_CHARS`. -/
def fetch_law_data_core (app_data : Element) : Option (List Char) × Option String :=
  let extracted_texts := extractedTexts app_data
  if extracted_texts = [] then
    match findChild app_data "LawFullText" with
    | some fallback_node =>
      match fallback_node.text with
      | some raw_text =>
        if raw_text ≠ [] ∧ trim raw_text ≠ [] then
          (some (trim (collapseWs raw_text)), none)
        else (none, some "Failed to extract any relevant text content from XML structure.")
      | none => (none, some "Failed to extract any relevant text content from XML structure.")
    | none => (none, some "Failed to extract any relevant text content from XML structure.")
  else
    let combined_text := List.intercalate ['\n'] extracted_texts
    let cleaned_text := trim (collapseWs combined_text)
    if cleaned_text = [] then (none, some "Extracted text became empty after cleaning.")
    else (some (cleaned_text.take MAX_CHARS), none)

/-- One normalized law record, as built by `_fetch_specific_type`
(src/streamlit_app.py line 75).  Dates are modelled as ordered integers;
`none` is an absent or unparsable `PromulgationDate`. -/
structure LawRow where
  lawId : Option (List Char)
  lawName : Option (List Char)
  lawNumber : Option (List Char)
  promDate : Option Int
  lawTypeCode : String
  typeSortKey : Nat
deriving DecidableEq

def toLowerList (l : List Char) : List Char := l.map Char.toLower

/-- `Series.str.contains(q, case=False, na=False)` for the plain substring
queries this app passes: case-insensitive containment, a missing field
(`NaN`) never matches. -/
def containsCI (field : Option (List Char)) (q : List Char) : Bool :=
  match field with
  | none => false
  | some s => decide (toLowerList q <:+: toLowerList s)

/-- `filter_laws` (src/streamlit_app.py lines 228-239).  Each guard mirrors
a Python truthiness test: an empty query or an absent date imposes no
constraint.  The final display-column projection of the source keeps rows
and their order unchanged and is omitted. -/
def filter_laws (laws : List LawRow) (name_query num_query keyword_query : List Char)
    (date_from date_to : Option Int) : List LawRow :=
  if laws = [] then []
  else
    let df := laws
    let df := if name_query ≠ [] then
        df.filter (fun r => containsCI r.lawName name_query)
      else df
    let df := if num_query ≠ [] then
        df.filter (fun r => containsCI r.lawNumber num_query)
      else df
    let df := if keyword_query ≠ [] then
        df.filter (fun r =>
          containsCI r.lawName keyword_query || containsCI r.lawNumber keyword_query)
      else df
    let df := match date_from with
      | some d1 => df.filter (fun r =>
          match r.promDate with
          | some d => decide (d1 ≤ d)
          | none => false)
      | none => df
    let df := match date_to with
      | some d2 => df.filter (fun r =>
          match r.promDate with
          | some d => decide (d ≤ d2)
          | none => false)
      | none => df
    df

def SPECIFIC_LAW_TYPE_CODES : List String := ["2", "3", "4"]

/-- `fetch_law_list` (src/streamlit_app.py lines 80-96), with
`_fetch_specific_type` abstracted as an oracle from a category code to the
record list it yields (it returns `[]` on every failure).  In the source,
line 95 reads `if not laws: return None; return laws`: both `return`
statements belong to the `if not laws:` suite, so when `laws` is non-empty
the `elif` branch ends without a `return` and Python yields `None`.  The
embedding reproduces that fall-through. -/
def fetch_law_list (fetchSpecificType : String → List LawRow)
    (requested_law_type_code : String) : Option (List LawRow) :=
  if requested_law_type_code = "1" then
    let results := SPECIFIC_LAW_TYPE_CODES.map fetchSpecificType
    let all_laws := results.flatten
    let fetch_errors := results.any (fun l => l.isEmpty)
    if all_laws.isEmpty && fetch_errors then none else some all_laws
  else if requested_law_type_code ∈ SPECIFIC_LAW_TYPE_CODES then
    let laws := fetchSpecificType requested_law_type_code
    if laws.isEmpty then none else none
  else none

/-- Finish reason exposed by a blocked LLM response (the source inspects
`genai.types.FinishReason.SAFETY` / `.RECITATION`; everything else is
`other`). -/
inductive FinishReason where
  | safety
  | recitation
  | other
deriving DecidableEq

/-- Outcome of one `gemini_model.generate_content` call: a response with
parts, an empty/blocked response carrying a finish reason and the
`error_detail` string the source assembles, or a raised exception. -/
inductive GenResult where
  | withParts (text : String)
  | blockedEmpty (reason : FinishReason) (detail : String)
  | raisedError (msg : String)
deriving DecidableEq

/-- One chat turn as stored in `st.session_state.qa_chat_history`. -/
structure ChatMsg where
  role : String
  content : String
deriving DecidableEq

/-- One role-tagged message sent to the LLM API. -/
structure GMsg where
  role : String
  parts : List String
deriving DecidableEq

/-- The prompt template of `get_gemini_summary` (line 142). -/
def summaryPrompt (text_content : String) : String :=
  "以下の日本の法令本文を200〜300字程度で簡潔に要約してください。\n\n--- 法令本文 ---\n"
    ++ text_content ++ "\n--- ここまで ---\n\n--- 要約 ---"

/-- `get_gemini_summary` (src/streamlit_app.py lines 137-161).  The LLM
service is an oracle argument; the second component counts how many LLM
calls were made. -/
def get_gemini_summary (gemini_enabled : Bool) (generate_content : String → GenResult)
    (text_content : String) : String × Nat :=
  if !gemini_enabled then ("AI機能は無効です。", 0)
  else if text_content = "" then ("要約対象のテキストがありません。", 0)
  else
    match generate_content (summaryPrompt text_content) with
    | .withParts t => (t, 1)
    | .blockedEmpty _ detail => ("要約を生成できませんでした。" ++ detail, 1)
    | .raisedError _ => ("要約の生成中に予期せぬエラーが発生しました。", 1)

/-- The system instruction of `get_gemini_chat_response` (lines 167-173),
embedding the statute text and the mandatory citation-tag format. -/
def systemInstruction (context : String) : String :=
  "あなたは日本の法律アシスタントAIです。提供された以下の法令本文に基づいて、ユーザーの質問にのみ回答してください。本文から回答が見つからない場合は「提供された本文からは回答できません。」と明確に述べてください。外部知識や推測は使用しないでください。回答は簡潔にお願いします。\n**重要:** 回答を作成した後、その回答の主な根拠となった条文番号を、回答の最後に `【引用元: 第〇条】` または `【引用元: 第〇条、第△条】` の形式で**必ず**示してください。該当する条文がない場合は `【引用元: なし】` と記載してください。\n\n--- 法令本文 ---\n"
    ++ context ++ "\n--- ここまで ---\n"

/-- `get_gemini_chat_response` (src/streamlit_app.py lines 163-196): AI
disabled and empty-context checks, role-mapped history, system instruction,
then one oracle call.  The second component counts LLM calls. -/
def get_gemini_chat_response (gemini_enabled : Bool)
    (generate_content : List GMsg → GenResult) (context : String)
    (history : List ChatMsg) (user_question : String) : String × Nat :=
  if !gemini_enabled then ("AI機能は無効です。", 0)
  else if context = "" then ("チャットのコンテキスト（法令本文）がありません。", 0)
  else
    let gemini_history := history.map fun entry =>
      GMsg.mk (if entry.role = "user" then "user" else "model") [entry.content]
    let messages_for_api :=
      [GMsg.mk "user" [systemInstruction context],
       GMsg.mk "model" ["承知いたしました。提供された法令本文に基づいて回答し、引用元を示します。"]]
        ++ gemini_history ++ [GMsg.mk "user" [user_question]]
    match generate_content messages_for_api with
    | .withParts t => (t, 1)
    | .blockedEmpty .safety _ => ("回答が安全基準によりブロックされました。", 1)
    | .blockedEmpty .recitation _ => ("回答が引用制限によりブロックされました。", 1)
    | .blockedEmpty .other detail => ("回答を生成できませんでした。" ++ detail, 1)
    | .raisedError _ => ("チャット応答の生成中に予期せぬエラーが発生しました。", 1)

/-- The AI-related slice of `st.session_state` (initialised at
src/streamlit_app.py lines 263-270).  Search-result display fields are
orthogonal to the panel life cycle and omitted. -/
structure AppState where
  summarize_law_id : Option String
  current_summary : Option String
  summary_loading : Bool
  qa_law_id : Option String
  qa_law_name : Option String
  qa_law_context : Option String
  qa_chat_history : List ChatMsg
  qa_loading : Bool
deriving DecidableEq

/-- The initial session state (lines 263-270). -/
def initState : AppState :=
  { summarize_law_id := none, current_summary := none, summary_loading := false,
    qa_law_id := none, qa_law_name := none, qa_law_context := none,
    qa_chat_history := [], qa_loading := false }

/-- One user-action (or fetch-completion) event of the interaction loop. -/
inductive UEvent where
  | searchClicked
  | clickSummary (law_id : String)
  | clickQA (law_id : String) (law_name : String)
  | closeSummary
  | closeQA
  | summaryFetchDone (law_text : Option String) (error : Option String) (llm_summary : String)
  | qaFetchDone (law_text : Option String) (error : Option String)
  | submitQuestion (question : String) (answer : String)

/-- Python truthiness of an optional string. -/
def optTruthy : Option String → Bool
  | none => false
  | some s => s ≠ ""

/-- The session-state transitions of the source, one per re-render trigger:
search reset (line 275), the per-row summary / QA button handlers (lines
404 and 408), the close buttons (lines 326 and 355), the two fetch blocks
(lines 286-297 and 299-315) and chat submission (lines 345-354).  Only the
fields each Python line assigns are touched. -/
def step (s : AppState) (e : UEvent) : AppState :=
  match e with
  | .searchClicked =>
    { s with summarize_law_id := none, current_summary := none,
             qa_law_id := none, qa_chat_history := [], qa_law_context := none }
  | .clickSummary law_id =>
    { s with qa_law_id := none, qa_chat_history := [],
             summarize_law_id := some law_id, current_summary := none,
             summary_loading := true }
  | .clickQA law_id law_name =>
    { s with summarize_law_id := none, current_summary := none,
             qa_law_id := some law_id, qa_law_name := some law_name,
             qa_chat_history := [], qa_law_context := none, qa_loading := true }
  | .closeSummary =>
    { s with summarize_law_id := none, current_summary := none }
  | .closeQA =>
    { s with qa_law_id := none, qa_law_name := none, qa_law_context := none,
             qa_chat_history := [] }
  | .summaryFetchDone law_text error llm_summary =>
    if s.summary_loading && optTruthy s.summarize_law_id then
      let new_summary :=
        if optTruthy error then
          some ("要約のための本文取得エラー: " ++ error.getD "")
        else if optTruthy law_text then some llm_summary
        else some "要約対象の法令本文が見つかりませんでした (本文空)。"
      { s with current_summary := new_summary, summary_loading := false }
    else s
  | .qaFetchDone law_text error =>
    if s.qa_loading && optTruthy s.qa_law_id then
      if optTruthy error then { s with qa_law_id := none, qa_loading := false }
      else if optTruthy law_text then
        { s with qa_law_context := law_text, qa_loading := false }
      else { s with qa_law_id := none, qa_loading := false }
    else s
  | .submitQuestion question answer =>
    if optTruthy s.qa_law_id && !s.qa_loading && s.qa_law_context ≠ none then
      { s with qa_chat_history :=
          s.qa_chat_history ++ [⟨"user", question⟩, ⟨"assistant", answer⟩] }
    else s

/-- The mutual-exclusion invariant over the two AI panels: their target law
ids are never both set. -/
def PanelsExclusive (s : AppState) : Prop :=
  s.summarize_law_id = none ∨ s.qa_law_id = none

/-- The literal head of the citation marker pattern
`【引用元:\s*(.+?)\s*】` of `extract_citations` (line 202). -/
def markerLit : List Char := "【引用元:".toList

/-- Boolean prefix test on character lists. -/
def lstartsWith : List Char → List Char → Bool
  | [], _ => true
  | _ :: _, [] => false
  | a :: u, b :: v => a == b && lstartsWith u v

/-- After the lazily captured group, the pattern needs `\s*】`: skip
whitespace (any shorter skip reaches a non-`】` whitespace character, so
scanning forward is equivalent to the engine's greedy-then-backtrack
order) and demand the closing bracket. -/
def closeOK : List Char → Bool
  | [] => false
  | c :: r => if c = '】' then true else if isWs c then closeOK r else false

/-- The lazy group `(.+?)` of the marker pattern: grow the captured content
one character at a time (never across a newline, since `.` does not match
`\n` without `re.DOTALL`) until `\s*】` can close the match. -/
def scanC (pre : List Char) : List Char → Option (List Char)
  | [] => none
  | c :: r =>
    if c = '\n' then none
    else if closeOK r then some (pre ++ [c])
    else scanC (pre ++ [c]) r

/-- The greedy leading `\s*` of the marker pattern: try the maximal
whitespace run first, then backtrack one character at a time. -/
def tryLead (s : List Char) : Nat → Option (List Char)
  | 0 => scanC [] s
  | k + 1 =>
    match scanC [] (s.drop (k + 1)) with
    | some g => some g
    | none => tryLead s k

/-- Match `\s*(.+?)\s*】` at the position just after the literal marker
head, returning the captured group. -/
def matchAfter (s : List Char) : Option (List Char) :=
  tryLead s (s.takeWhile isWs).length

/-- `re.search` for the marker pattern: leftmost position whose full match
succeeds, returning the captured group (group 1). -/
def searchMarker : List Char → Option (List Char)
  | [] => none
  | c :: r =>
    if lstartsWith markerLit (c :: r) then
      match matchAfter ((c :: r).drop markerLit.length) with
      | some g => some g
      | none => searchMarker r
    else searchMarker r

/-- The Japanese numerals of the article-reference pattern
`第(?:[一二三四五六七八九十百千]+|[0-9]+)(?:条(?:の[一二三四五六七八九十百千]|[0-9]+)*)?`
(lines 206 and 218). -/
def kanjiNums : List Char := "一二三四五六七八九十百千".toList

def isKanjiNum (c : Char) : Bool := kanjiNums.contains c

def isDigitCh (c : Char) : Bool := '0' ≤ c && c ≤ '9'

/-- The greedy star `(?:の[一二三四五六七八九十百千]|[0-9]+)*` after `条`:
per iteration the `の` + one-kanji-numeral branch is tried first, else one
maximal digit run.  Fuel-indexed (each iteration consumes at least one
character, so fuel = input length is always sufficient); returns (consumed
characters, rest). -/
def starSuffixF : Nat → List Char → List Char × List Char
  | 0, s => ([], s)
  | f + 1, s =>
    match s with
    | 'の' :: k :: r =>
      if isKanjiNum k then
        let p := starSuffixF f r
        ('の' :: k :: p.1, p.2)
      else ([], s)
    | _ =>
      let run := s.takeWhile isDigitCh
      if run = [] then ([], s)
      else
        let p := starSuffixF f (s.dropWhile isDigitCh)
        (run ++ p.1, p.2)

/-- One greedy match of the article-reference pattern at the head of the
input: `第`, then a maximal kanji-numeral run (or, failing that, a maximal
digit run), then optionally `条` with its star suffix.  Returns the matched
token and the rest of the input, or `none`. -/
def matchArticle (s : List Char) : Option (List Char × List Char) :=
  match s with
  | '第' :: r =>
    let kanjiRun := r.takeWhile isKanjiNum
    let numRun := if kanjiRun ≠ [] then kanjiRun else r.takeWhile isDigitCh
    if numRun = [] then none
    else
      match r.drop numRun.length with
      | '条' :: r2 =>
        let p := starSuffixF r2.length r2
        some ('第' :: (numRun ++ '条' :: p.1), p.2)
      | r1 => some ('第' :: numRun, r1)
  | _ => none

/-- `re.findall` for the article-reference pattern: scan left to right,
emitting each leftmost match and resuming after it.  Fuel-indexed (every
step consumes at least one character, so fuel = input length suffices). -/
def findArticlesF : Nat → List Char → List (List Char)
  | 0, _ => []
  | f + 1, s =>
    match s with
    | [] => []
    | _ :: r =>
      match matchArticle s with
      | some (tok, rest) => tok :: findArticlesF f rest
      | none => findArticlesF f r

def findArticles (s : List Char) : List (List Char) := findArticlesF s.length s

/-- `extract_citations` (src/streamlit_app.py lines 200-208): find the
citation marker, strip its content, return `[]` for the `なし` sentinel,
otherwise all embedded article-reference tokens in order. -/
def extract_citations (ai_response_text : List Char) : List (List Char) :=
  match searchMarker ai_response_text with
  | none => []
  | some g =>
    let source_text := trim g
    if source_text ≠ "なし".toList then findArticles source_text else []

/-- The boundary lookahead of `find_article_text` (line 218): a position
starts an article-title-shaped token when `第` is followed by a kanji
numeral or a digit (the `条` part of the lookahead is optional and
restricts nothing). -/
def boundaryStart : List Char → Bool
  | c :: d :: _ => c = '第' && (isKanjiNum d || isDigitCh d)
  | _ => false

/-- Distance to the first boundary position (or to the end of the input).
The `(?:\s*\n)*` subpattern of line 218 consumes only whitespace, over
which the lookahead can never fire, so the lazily chosen span end is
exactly this first boundary-or-end position. -/
def scanBoundary : List Char → Nat
  | [] => 0
  | c :: r => if boundaryStart (c :: r) then 0 else 1 + scanBoundary r

/-- `str.find` / the leftmost `re.search` anchor: index of the first
occurrence of `pat` (which `re.escape` makes literal in the source). -/
def firstOccur (pat : List Char) : List Char → Option Nat
  | [] => if lstartsWith pat [] then some 0 else none
  | c :: r =>
    if lstartsWith pat (c :: r) then some 0
    else (firstOccur pat r).map (· + 1)

/-- The span captured by the primary pattern of `find_article_text` (line
218): from the first occurrence of the escaped title up to (excluding) the
next article-title-shaped token or the end of the text. -/
def regexSpan (text title : List Char) : Option (List Char) :=
  match firstOccur title text with
  | none => none
  | some i =>
    some ((text.drop i).take (title.length + scanBoundary (text.drop (i + title.length))))

/-- `find_article_text` (src/streamlit_app.py lines 210-225): empty-input
guard, primary bounded-span regex search, and the literal-suffix fallback
of lines 222-225. -/
def find_article_text (full_law_text article_title : List Char) : Option (List Char) :=
  if full_law_text = [] ∨ article_title = [] then none
  else
    match regexSpan full_law_text article_title with
    | some m => some (trim m)
    | none =>
      match firstOccur article_title full_law_text with
      | some start_index => some (trim (full_law_text.drop start_index))
      | none => none

/-- Spec-side predicate: the list starts with an article-title-shaped
token (`第` + numeral), the shape the boundary lookahead recognises. -/
def BoundaryTok (l : List Char) : Prop :=
  ∃ d r, l = '第' :: d :: r ∧ (isKanjiNum d = true ∨ isDigitCh d = true)

/-- A sample record, as `_fetch_specific_type` would build it for category
code 2. -/
def sampleRow : LawRow :=
  { lawId := some "321CONSTITUTION".toList, lawName := some "日本国憲法".toList,
    lawNumber := some "昭和二十一年憲法".toList, promDate := some 19461103,
    lawTypeCode := "2", typeSortKey := 1 }

/- ------------------------------------------------------------------ -/
/- Helper lemmas -/
/- ------------------------------------------------------------------ -/

theorem collapseWsF_no_ws (f : Nat) (l : List Char) (hf : l.length ≤ f)
    (h : ∀ c ∈ l, isWs c = false) : collapseWsF f l = l := by
  induction f generalizing l with
  | zero =>
    rw [List.length_eq_zero.mp (Nat.le_zero.mp hf)]
    rfl
  | succ f ih =>
    cases l with
    | nil => rfl
    | cons c r =>
      have hc : isWs c = false := h c (by simp)
      show (if isWs c then _ else c :: collapseWsF f r) = c :: r
      rw [hc]
      simp only [Bool.false_eq_true, if_false]
      exact congrArg (c :: ·)
        (ih r (Nat.le_of_succ_le_succ (by simpa using hf)) fun x hx => h x (by simp [hx]))

theorem collapseWs_no_ws (l : List Char) (h : ∀ c ∈ l, isWs c = false) :
    collapseWs l = l :=
  collapseWsF_no_ws l.length l le_rfl h

theorem trimLeft_no_ws (l : List Char) (h : ∀ c ∈ l, isWs c = false) :
    trimLeft l = l := by
  cases l with
  | nil => rfl
  | cons c r =>
    have hc : isWs c = false := h c (by simp)
    simp [trimLeft, List.dropWhile_cons, hc]

theorem trimRight_no_ws (l : List Char) (h : ∀ c ∈ l, isWs c = false) :
    trimRight l = l := by
  induction l with
  | nil => rfl
  | cons c r ih =>
    have hc : isWs c = false := h c (by simp)
    have hr : trimRight r = r := ih fun x hx => h x (by simp [hx])
    rw [trimRight, hr]
    cases r with
    | nil => simp [hc]
    | cons b u => rfl

theorem trim_no_ws (l : List Char) (h : ∀ c ∈ l, isWs c = false) :
    trim l = l := by
  rw [trim, trimLeft_no_ws l h, trimRight_no_ws l h]

/-- The `LawFullText` fallback path of `fetch_law_data_core` in general
form: a payload with no allow-listed text and a whitespace-free, non-empty
raw full text returns that raw text unchanged - in particular untruncated. -/
theorem fallback_returns_raw (L : List Char) (hnw : ∀ c ∈ L, isWs c = false)
    (hne : L ≠ []) :
    (fetch_law_data_core
        (.mk "ApplData" none [.mk "LawFullText" (some L) []])).1 = some L := by
  have hex : extractedTexts
      (.mk "ApplData" none [.mk "LawFullText" (some L) []]) = [] := rfl
  have hfc : findChild
      (.mk "ApplData" none [.mk "LawFullText" (some L) []]) "LawFullText" =
      some (.mk "LawFullText" (some L) []) := rfl
  unfold fetch_law_data_core
  rw [hex, if_pos rfl, hfc]
  simp only [Element.text]
  rw [collapseWs_no_ws _ hnw, trim_no_ws _ hnw, if_pos ⟨hne, hne⟩]

theorem lstartsWith_iff (p : List Char) : ∀ s, lstartsWith p s = true ↔ p <+: s := by
  induction p with
  | nil =>
    intro s
    simp [lstartsWith, List.nil_prefix]
  | cons a u ih =>
    intro s
    cases s with
    | nil =>
      simp [lstartsWith, List.prefix_nil]
    | cons b v =>
      simp [lstartsWith, List.cons_prefix_cons, ih v]

theorem infix_iff_exists_drop (p l : List Char) :
    p <:+: l ↔ ∃ j, p <+: l.drop j := by
  constructor
  · rintro ⟨s, t, rfl⟩
    refine ⟨s.length, ?_⟩
    rw [List.append_assoc, List.drop_left]
    exact List.prefix_append p t
  · rintro ⟨j, hp⟩
    obtain ⟨t, ht⟩ := hp
    refine ⟨l.take j, t, ?_⟩
    rw [List.append_assoc, ht, List.take_append_drop]

theorem searchMarker_eq_none (s : List Char) (h : ¬ markerLit <:+: s) :
    searchMarker s = none := by
  induction s with
  | nil => rfl
  | cons c r ih =>
    have hns : lstartsWith markerLit (c :: r) ≠ true := fun hT =>
      h ((lstartsWith_iff _ _).mp hT).isInfix
    rw [searchMarker, if_neg (by simpa using hns)]
    exact ih fun hi => h (List.infix_cons hi)

theorem closeOK_false_of_no_bracket (l : List Char) (h : '】' ∉ l) :
    closeOK l = false := by
  induction l with
  | nil => rfl
  | cons c r ih =>
    have hc : c ≠ '】' := fun he => h (he ▸ List.mem_cons_self c r)
    rw [closeOK, if_neg hc]
    split
    · exact ih fun hm => h (List.mem_cons_of_mem c hm)
    · rfl

theorem scanC_none_of_no_bracket (l : List Char) : ∀ pre, '】' ∉ l →
    scanC pre l = none := by
  induction l with
  | nil => intro pre _; rfl
  | cons c r ih =>
    intro pre h
    rw [scanC]
    split
    · rfl
    · rw [closeOK_false_of_no_bracket r fun hm => h (List.mem_cons_of_mem c hm)]
      simp only [Bool.false_eq_true, if_false]
      exact ih _ fun hm => h (List.mem_cons_of_mem c hm)

theorem tryLead_none_of_no_bracket (s : List Char) (h : '】' ∉ s) :
    ∀ k, tryLead s k = none := by
  intro k
  induction k with
  | zero => exact scanC_none_of_no_bracket s [] h
  | succ k ih =>
    rw [tryLead, scanC_none_of_no_bracket _ _ fun hm => h (List.mem_of_mem_drop hm)]
    exact ih

theorem searchMarker_none_of_no_bracket (s : List Char) (h : '】' ∉ s) :
    searchMarker s = none := by
  induction s with
  | nil => rfl
  | cons c r ih =>
    have hr : '】' ∉ r := fun hm => h (List.mem_cons_of_mem c hm)
    rw [searchMarker]
    split
    · rw [matchAfter,
        tryLead_none_of_no_bracket _ (fun hm => h (List.mem_of_mem_drop hm)) _]
      exact ih hr
    · exact ih hr

theorem trimRight_eq_nil_iff (l : List Char) :
    trimRight l = [] ↔ ∀ x ∈ l, isWs x = true := by
  induction l with
  | nil => simp [trimRight]
  | cons a u ih =>
    rw [trimRight]
    constructor
    · intro h
      intro x hx
      rcases List.mem_cons.mp hx with hxa | hxu
      · subst hxa
        by_cases ha : isWs x
        · exact ha
        · exfalso
          revert h
          split
          · rw [if_neg ha]
            intro h
            cases h
          · intro h
            cases h
      · revert h
        split
        · rename_i heq
          intro _
          exact (ih.mp heq) x hxu
        · intro h
          cases h
    · intro h
      have hu : trimRight u = [] := ih.mpr fun x hx => h x (List.mem_cons_of_mem a hx)
      rw [hu, if_pos (h a (List.mem_cons_self a u))]

theorem trimRight_cons_of_ne (a : Char) (u : List Char) (h : trimRight u ≠ []) :
    trimRight (a :: u) = a :: trimRight u := by
  rw [trimRight]
  split
  · rename_i heq
    exact absurd heq h
  · rfl

theorem trimRight_cons_not_ws (a : Char) (u : List Char) (hu : trimRight u = [])
    (ha : isWs a = false) : trimRight (a :: u) = [a] := by
  rw [trimRight, hu, ha]
  rfl

theorem trimRight_idem (l : List Char) : trimRight (trimRight l) = trimRight l := by
  induction l with
  | nil => rfl
  | cons a u ih =>
    by_cases hu : trimRight u = []
    · rw [trimRight, hu]
      by_cases ha : isWs a
      · simp [ha, trimRight]
      · have ha' : isWs a = false := by simpa using ha
        rw [if_neg ha]
        exact trimRight_cons_not_ws a [] rfl ha'
    · rw [trimRight_cons_of_ne a u hu,
        trimRight_cons_of_ne a (trimRight u) (by rw [ih]; exact hu), ih]

theorem closeOK_allws (u : List Char) (t : List Char)
    (h : ∀ x ∈ u, isWs x = true) : closeOK (u ++ '】' :: t) = true := by
  induction u with
  | nil => rfl
  | cons a v ih =>
    show closeOK (a :: (v ++ '】' :: t)) = true
    rw [closeOK]
    split
    · rfl
    · rw [h a (List.mem_cons_self a v)]
      simp only [if_true]
      exact ih fun x hx => h x (List.mem_cons_of_mem a hx)

theorem closeOK_mixed (u : List Char) (r : List Char)
    (hb : '】' ∉ u) (hx : ∃ x ∈ u, isWs x = false) : closeOK (u ++ r) = false := by
  induction u with
  | nil =>
    obtain ⟨x, hx, -⟩ := hx
    cases hx
  | cons a v ih =>
    show closeOK (a :: (v ++ r)) = false
    have ha : a ≠ '】' := fun he => hb (he ▸ List.mem_cons_self a v)
    rw [closeOK, if_neg ha]
    by_cases haw : isWs a
    · rw [haw]
      simp only [if_true]
      refine ih (fun hm => hb (List.mem_cons_of_mem a hm)) ?_
      obtain ⟨x, hxm, hxw⟩ := hx
      rcases List.mem_cons.mp hxm with h1 | h2
      · subst h1
        rw [haw] at hxw
        cases hxw
      · exact ⟨x, h2, hxw⟩
    · rw [if_neg haw]

theorem scanC_eq (u : List Char) (t' : List Char) :
    ∀ pre, '\n' ∉ u → '】' ∉ u → trimRight u ≠ [] →
    scanC pre (u ++ '】' :: t') = some (pre ++ trimRight u) := by
  induction u with
  | nil =>
    intro pre _ _ hw
    exact absurd rfl hw
  | cons a v ih =>
    intro pre hn hb hw
    have ha : a ≠ '\n' := fun he => hn (he ▸ List.mem_cons_self a v)
    show scanC pre (a :: (v ++ '】' :: t')) = _
    rw [scanC, if_neg ha]
    by_cases hvw : ∀ x ∈ v, isWs x = true
    · rw [closeOK_allws v t' hvw]
      simp only [if_true]
      have hv : trimRight v = [] := (trimRight_eq_nil_iff v).mpr hvw
      have haw : isWs a = false := by
        by_contra hc
        apply hw
        rw [trimRight, hv, if_pos (by simpa using hc)]
      rw [trimRight_cons_not_ws a v hv haw]
    · push_neg at hvw
      obtain ⟨x, hxm, hxw⟩ := hvw
      have hxw' : isWs x = false := by simpa using hxw
      rw [closeOK_mixed v ('】' :: t') (fun hm => hb (List.mem_cons_of_mem a hm))
        ⟨x, hxm, hxw'⟩]
      simp only [Bool.false_eq_true, if_false]
      have hv : trimRight v ≠ [] := by
        rw [Ne, trimRight_eq_nil_iff]
        intro hall
        rw [hall x hxm] at hxw'
        cases hxw'
      rw [ih (pre ++ [a]) (fun hm => hn (List.mem_cons_of_mem a hm))
        (fun hm => hb (List.mem_cons_of_mem a hm)) hv,
        trimRight_cons_of_ne a v hv]
      simp

theorem drop_length_takeWhile (p : Char → Bool) (l : List Char) :
    l.drop (l.takeWhile p).length = l.dropWhile p := by
  induction l with
  | nil => rfl
  | cons a u ih =>
    by_cases ha : p a
    · rw [List.takeWhile_cons, List.dropWhile_cons, ha]
      simpa using ih
    · have ha' : p a = false := by simpa using ha
      rw [List.takeWhile_cons, List.dropWhile_cons, ha']
      rfl

theorem exists_nonws_of_trim_ne_nil (c : List Char) (hne : trim c ≠ []) :
    ∃ x ∈ c, isWs x = false := by
  by_contra hall
  push_neg at hall
  apply hne
  have h1 : trimLeft c = [] := by
    rw [trimLeft, List.dropWhile_eq_nil_iff]
    intro x hx
    have := hall x hx
    simpa using this
  rw [trim, h1]
  rfl

theorem tryLead_of_scanC (s : List Char) (k : Nat) (g : List Char)
    (h : scanC [] (s.drop k) = some g) : tryLead s k = some g := by
  cases k with
  | zero =>
    rw [List.drop_zero] at h
    exact h
  | succ k =>
    rw [tryLead, h]

theorem matchAfter_eq (c t : List Char) (hb : '】' ∉ c) (hn : '\n' ∉ c)
    (hne : trim c ≠ []) : matchAfter (c ++ '】' :: t) = some (trim c) := by
  obtain ⟨x, hxm, hxw⟩ := exists_nonws_of_trim_ne_nil c hne
  have hlen : (c.takeWhile isWs).length ≠ c.length := by
    intro he
    have heq : c.takeWhile isWs = c :=
      (List.takeWhile_prefix isWs).eq_of_length he
    have := List.takeWhile_eq_self_iff.mp heq x hxm
    rw [hxw] at this
    cases this
  have hTW : (c ++ '】' :: t).takeWhile isWs = c.takeWhile isWs := by
    rw [List.takeWhile_append, if_neg hlen]
  have hdrop : (c ++ '】' :: t).drop (c.takeWhile isWs).length =
      c.dropWhile isWs ++ '】' :: t := by
    rw [List.drop_append_of_le_length (List.takeWhile_prefix isWs).length_le,
      drop_length_takeWhile]
  have hsub : List.Sublist (c.dropWhile isWs) c := List.dropWhile_sublist isWs
  have hscan : scanC [] ((c ++ '】' :: t).drop (c.takeWhile isWs).length) =
      some ([] ++ trimRight (c.dropWhile isWs)) := by
    rw [hdrop]
    exact scanC_eq (c.dropWhile isWs) t []
      (fun hm => hn (hsub.mem hm)) (fun hm => hb (hsub.mem hm)) hne
  rw [matchAfter, hTW, tryLead_of_scanC _ _ _ hscan]
  rfl

theorem searchMarker_prepend (p s : List Char) (hp : '【' ∉ p) :
    searchMarker (p ++ s) = searchMarker s := by
  induction p with
  | nil => rfl
  | cons a q ih =>
    have ha : a ≠ '【' := fun he => hp (he ▸ List.mem_cons_self a q)
    have hfalse : lstartsWith markerLit (a :: (q ++ s)) = false := by
      rw [show markerLit = '【' :: "引用元:".toList from rfl, lstartsWith]
      have hbeq : ('【' == a) = false := beq_eq_false_iff_ne.mpr fun he => ha he.symm
      rw [hbeq, Bool.false_and]
    show searchMarker (a :: (q ++ s)) = searchMarker s
    rw [searchMarker, hfalse]
    simp only [Bool.false_eq_true, if_false]
    exact ih fun hm => hp (List.mem_cons_of_mem a hm)

theorem searchMarker_at_marker (c t : List Char) (hb : '】' ∉ c) (hn : '\n' ∉ c)
    (hne : trim c ≠ []) :
    searchMarker (markerLit ++ (c ++ '】' :: t)) = some (trim c) := by
  have hcons : markerLit ++ (c ++ '】' :: t) =
      '【' :: ("引用元:".toList ++ (c ++ '】' :: t)) := rfl
  have hpre : lstartsWith markerLit ('【' :: ("引用元:".toList ++ (c ++ '】' :: t))) = true := by
    refine (lstartsWith_iff _ _).mpr ?_
    rw [← hcons]
    exact List.prefix_append _ _
  have hdrop : ('【' :: ("引用元:".toList ++ (c ++ '】' :: t))).drop markerLit.length =
      c ++ '】' :: t := by
    rw [← hcons, List.drop_left]
  rw [hcons, searchMarker, hpre]
  simp only [if_true]
  rw [hdrop, matchAfter_eq c t hb hn hne]

theorem trimLeft_trimRight_trimLeft (c : List Char) :
    trimLeft (trimRight (trimLeft c)) = trimRight (trimLeft c) := by
  cases hu : trimLeft c with
  | nil => rfl
  | cons b v =>
    have hbw : isWs b = false := by
      have hq := List.head?_dropWhile_not isWs c
      rw [show c.dropWhile isWs = trimLeft c from rfl, hu] at hq
      simpa using hq
    cases htr : trimRight v with
    | nil =>
      rw [trimRight_cons_not_ws b v htr hbw, trimLeft, List.dropWhile_cons, hbw]
      rfl
    | cons y ys =>
      rw [trimRight_cons_of_ne b v (by rw [htr]; simp), trimLeft,
        List.dropWhile_cons, hbw]
      rfl

theorem trim_idem (c : List Char) : trim (trim c) = trim c := by
  rw [trim, trim, trimLeft_trimRight_trimLeft, trimRight_idem]

theorem scanBoundary_spec (u : List Char) :
    (∀ j, j < scanBoundary u → boundaryStart (u.drop j) = false) ∧
    (u.drop (scanBoundary u) = [] ∨ boundaryStart (u.drop (scanBoundary u)) = true) ∧
    scanBoundary u ≤ u.length := by
  induction u with
  | nil =>
    refine ⟨fun j hj => absurd hj (by simp [scanBoundary]), Or.inl rfl, by simp [scanBoundary]⟩
  | cons c r ih =>
    by_cases hB : boundaryStart (c :: r) = true
    · rw [scanBoundary, if_pos hB]
      exact ⟨fun j hj => absurd hj (Nat.not_lt_zero j), Or.inr hB, by simp⟩
    · have hB' : boundaryStart (c :: r) = false := by simpa using hB
      rw [scanBoundary, if_neg (by simp [hB'])]
      obtain ⟨ih1, ih2, ih3⟩ := ih
      refine ⟨?_, ?_, by simp only [List.length_cons]; omega⟩
      · intro j hj
        cases j with
        | zero => exact hB'
        | succ j =>
          rw [List.drop_succ_cons]
          exact ih1 j (by omega)
      · rw [show 1 + scanBoundary r = scanBoundary r + 1 by omega, List.drop_succ_cons]
        exact ih2

theorem firstOccur_none_iff (pat : List Char) : ∀ l,
    firstOccur pat l = none ↔ ∀ j, ¬ pat <+: l.drop j := by
  intro l
  induction l with
  | nil =>
    rw [firstOccur]
    constructor
    · intro h j
      intro hc
      rw [List.drop_nil] at hc
      rw [if_pos ((lstartsWith_iff _ _).mpr hc)] at h
      cases h
    · intro h
      rw [if_neg]
      intro hT
      refine h 0 ?_
      rw [List.drop_nil]
      exact (lstartsWith_iff _ _).mp hT
  | cons c r ih =>
    rw [firstOccur]
    constructor
    · intro h j
      split at h
      · cases h
      · rename_i hfalse
        cases j with
        | zero =>
          intro hc
          exact hfalse ((lstartsWith_iff _ _).mpr (by simpa using hc))
        | succ j =>
          rw [List.drop_succ_cons]
          exact (ih.mp (by simpa using h)) j
    · intro h
      rw [if_neg, Option.map_eq_none']
      · exact ih.mpr fun j => by
          have := h (j + 1)
          rwa [List.drop_succ_cons] at this
      · intro hT
        exact h 0 (by simpa using (lstartsWith_iff _ _).mp hT)

theorem firstOccur_some_spec (pat : List Char) : ∀ l i,
    firstOccur pat l = some i →
    pat <+: l.drop i ∧ (∀ j, j < i → ¬ pat <+: l.drop j) ∧ i ≤ l.length := by
  intro l
  induction l with
  | nil =>
    intro i h
    rw [firstOccur] at h
    split at h
    · rename_i hT
      cases h
      exact ⟨(lstartsWith_iff _ _).mp hT, fun j hj => absurd hj (Nat.not_lt_zero j),
        Nat.le_refl 0⟩
    · cases h
  | cons c r ih =>
    intro i h
    rw [firstOccur] at h
    split at h
    · rename_i hT
      cases h
      exact ⟨(lstartsWith_iff _ _).mp hT, fun j hj => absurd hj (Nat.not_lt_zero j),
        by simp⟩
    · rename_i hF
      rw [Option.map_eq_some'] at h
      obtain ⟨i0, hi0, rfl⟩ := h
      obtain ⟨h1, h2, h3⟩ := ih i0 hi0
      refine ⟨by rwa [List.drop_succ_cons], ?_, by simpa using h3⟩
      intro j hj
      cases j with
      | zero =>
        intro hc
        exact hF ((lstartsWith_iff _ _).mpr (by simpa using hc))
      | succ j =>
        rw [List.drop_succ_cons]
        exact h2 j (by omega)

theorem boundaryStart_iff (l : List Char) :
    boundaryStart l = true ↔ BoundaryTok l := by
  match l with
  | [] =>
    constructor
    · intro h
      cases h
    · rintro ⟨d, r, he, -⟩
      cases he
  | [c] =>
    constructor
    · intro h
      cases h
    · rintro ⟨d, r, he, -⟩
      cases he
  | c :: d :: r =>
    rw [show boundaryStart (c :: d :: r) =
        (decide (c = '第') && (isKanjiNum d || isDigitCh d)) from rfl]
    constructor
    · intro h
      rcases Bool.and_eq_true_iff.mp h with ⟨h1, h2⟩
      refine ⟨d, r, by rw [of_decide_eq_true h1], ?_⟩
      rcases Bool.or_eq_true_iff.mp h2 with h3 | h3
      · exact Or.inl h3
      · exact Or.inr h3
    · rintro ⟨d', r', he, hnum⟩
      obtain ⟨rfl, rfl, rfl⟩ : c = '第' ∧ d' = d ∧ r' = r := by
        refine ⟨?_, ?_, ?_⟩ <;> injection he with h1 h2 <;> try exact h1.symm ▸ rfl
        all_goals injection h2 with h3 h4
        · exact h3.symm
        · exact h4.symm
      rw [decide_eq_true rfl, Bool.true_and]
      rcases hnum with h3 | h3
      · rw [h3, Bool.true_or]
      · rw [h3, Bool.or_true]

/- ------------------------------------------------------------------ -/
/- Claim theorems -/
/- ------------------------------------------------------------------ -/

/-- C1: the claim says a non-empty per-category result is returned as-is by
`fetch_law_list` for a concrete category code, and only an empty result
maps to `none`.  The code instead returns `None` in both cases: in line 95,
`if not laws: return None; return laws` puts both `return` statements
inside the `if` suite, so the non-empty case falls off the end of the
function.  This theorem evaluates the embedded code at the failing input:
a category-2 fetch yielding one record still produces `none`. -/
theorem c1_specific_type_returns_none :
    fetch_law_list (fun _ => [sampleRow]) "2" = none ∧
    fetch_law_list (fun _ => [sampleRow]) "3" = none ∧
    fetch_law_list (fun _ => [sampleRow]) "4" = none ∧
    fetch_law_list (fun _ => []) "2" = none ∧
    fetch_law_list (fun _ => []) "3" = none ∧
    fetch_law_list (fun _ => []) "4" = none ∧
    ([sampleRow] : List LawRow) ≠ [] := by
  refine ⟨rfl, rfl, rfl, rfl, rfl, rfl, by simp⟩

/-- C3: for every parsed response document, a result code `"0"` with no
`ApplData` payload container yields `payload = none`, code still `"0"` and
the explanatory anomaly message; any result code other than `"0"` yields
`payload = none` with that code and its message.  (The embedding is a total
function: no exception escapes.) -/
theorem c3_decoder_outcomes (root : Element) :
    (resultCodeOf root = some "0".toList →
      findChild root "ApplData" = none →
      parse_api_response root =
        (none, some "0".toList,
          some "API returned success code 0 but no ApplData found.".toList)) ∧
    (resultCodeOf root ≠ some "0".toList →
      parse_api_response root = (none, resultCodeOf root, messageOf root)) := by
  constructor
  · intro h0 happ
    unfold parse_api_response
    rw [h0]
    simp only [ne_eq, not_true_eq_false, if_false]
    unfold findChild at happ
    rw [happ]
  · intro hne
    unfold parse_api_response
    rw [if_pos hne]

/-- Witness for C3: a concrete document with code `"0"` and no `ApplData`
takes the anomaly branch. -/
theorem c3_decoder_outcomes_witness :
    parse_api_response
        (.mk "DataRoot" none
          [.mk "Result" none
            [.mk "Code" (some "0".toList) [], .mk "Message" (some "OK".toList) []]]) =
      (none, some "0".toList,
        some "API returned success code 0 but no ApplData found.".toList) :=
  (c3_decoder_outcomes _).1 (by decide) rfl

/-- C8: the session-state machine keeps at most one AI panel active: the
invariant `PanelsExclusive` holds initially and is preserved by every
transition, and the transition starting one panel sets its own target while
clearing the other panel's target and the chat history in the same step. -/
theorem c8_single_active_panel :
    PanelsExclusive initState ∧
    (∀ s e, PanelsExclusive s → PanelsExclusive (step s e)) ∧
    (∀ s law_id,
      (step s (.clickSummary law_id)).summarize_law_id = some law_id ∧
      (step s (.clickSummary law_id)).qa_law_id = none ∧
      (step s (.clickSummary law_id)).qa_chat_history = []) ∧
    (∀ s law_id law_name,
      (step s (.clickQA law_id law_name)).qa_law_id = some law_id ∧
      (step s (.clickQA law_id law_name)).summarize_law_id = none ∧
      (step s (.clickQA law_id law_name)).current_summary = none ∧
      (step s (.clickQA law_id law_name)).qa_chat_history = []) := by
  refine ⟨Or.inl rfl, ?_, ?_, ?_⟩
  · intro s e h
    cases e with
    | searchClicked => exact Or.inl rfl
    | clickSummary law_id => exact Or.inr rfl
    | clickQA law_id law_name => exact Or.inl rfl
    | closeSummary => exact Or.inl rfl
    | closeQA => exact Or.inr rfl
    | summaryFetchDone law_text error llm_summary =>
      simp only [step]
      split
      · exact h
      · exact h
    | qaFetchDone law_text error =>
      simp only [step]
      split
      · split
        · exact Or.inr rfl
        · split
          · exact h
          · exact Or.inr rfl
      · exact h
    | submitQuestion question answer =>
      simp only [step]
      split
      · exact h
      · exact h
  · intro s law_id
    exact ⟨rfl, rfl, rfl⟩
  · intro s law_id law_name
    exact ⟨rfl, rfl, rfl, rfl⟩

/-- Witness for C8: one concrete transition, from the initial state,
through the summary button. -/
theorem c8_single_active_panel_witness :
    PanelsExclusive (step initState (.clickSummary "321CONSTITUTION")) :=
  c8_single_active_panel.2.1 initState (.clickSummary "321CONSTITUTION") (Or.inl rfl)

/-- C9: with the LLM service unconfigured, both calls return the fixed
"AI disabled" message; with an empty required input text, both return the
fixed "no content" message - and in all four cases the LLM oracle is called
zero times (no network call). -/
theorem c9_noop_guards :
    (∀ generate_content text_content,
      get_gemini_summary false generate_content text_content = ("AI機能は無効です。", 0)) ∧
    (∀ generate_content,
      get_gemini_summary true generate_content "" = ("要約対象のテキストがありません。", 0)) ∧
    (∀ generate_content context history question,
      get_gemini_chat_response false generate_content context history question =
        ("AI機能は無効です。", 0)) ∧
    (∀ generate_content history question,
      get_gemini_chat_response true generate_content "" history question =
        ("チャットのコンテキスト（法令本文）がありません。", 0)) :=
  ⟨fun _ _ => rfl, fun _ => rfl, fun _ _ _ _ => rfl, fun _ _ _ => rfl⟩

/-- C4 counterexample: the claim says every successful result of the
Full-Text Extractor has length at most 30,000.  The `LawFullText` fallback
branch (src/streamlit_app.py lines 115-119) returns the cleaned fallback
text without applying `MAX_CHARS`: a payload whose only text is a
30,001-character raw full-text node yields a successful result of length
30,001. -/
theorem c4_fallback_not_truncated :
    (fetch_law_data_core
        (.mk "ApplData" none
          [.mk "LawFullText" (some (List.replicate 30001 'a')) []])).1 =
      some (List.replicate 30001 'a') ∧
    30000 < (List.replicate 30001 'a').length := by
  have hnw : ∀ c ∈ List.replicate 30001 'a', isWs c = false := by
    intro c hc
    rw [List.eq_of_mem_replicate hc]
    rfl
  have hne : (List.replicate 30001 'a' : List Char) ≠ [] := by
    rw [Ne, List.replicate_eq_nil_iff]
    omega
  constructor
  · exact fallback_returns_raw _ hnw hne
  · rw [List.length_replicate]
    omega

/-- C4 as amended: on the structured-extraction path (the allow-list walk
yields at least one fragment and the cleaned text is non-empty), the result
is exactly the first 30,000 characters of the cleaned text - so a cleaned
body of 40,000 characters (or any length at least 30,000) comes back at
exactly 30,000, and every structured-path result has length at most 30,000.
The raw `LawFullText` fallback path is returned without truncation. -/
theorem c4_truncation_structured_path (a : Element)
    (h1 : extractedTexts a ≠ [])
    (h2 : trim (collapseWs (List.intercalate ['\n'] (extractedTexts a))) ≠ []) :
    (fetch_law_data_core a).1 =
      some ((trim (collapseWs (List.intercalate ['\n'] (extractedTexts a)))).take MAX_CHARS) ∧
    (∀ t, (fetch_law_data_core a).1 = some t →
      t.length ≤ MAX_CHARS ∧
      (MAX_CHARS ≤ (trim (collapseWs (List.intercalate ['\n'] (extractedTexts a)))).length →
        t.length = MAX_CHARS)) := by
  have hmain : (fetch_law_data_core a).1 =
      some ((trim (collapseWs (List.intercalate ['\n'] (extractedTexts a)))).take MAX_CHARS) := by
    unfold fetch_law_data_core
    simp only [if_neg h1, if_neg h2]
  refine ⟨hmain, ?_⟩
  intro t ht
  rw [hmain] at ht
  have ht' : (trim (collapseWs (List.intercalate ['\n'] (extractedTexts a)))).take MAX_CHARS = t :=
    Option.some_inj.mp ht
  subst ht'
  constructor
  · rw [List.length_take]
    exact min_le_left _ _
  · intro hlong
    rw [List.length_take]
    exact Nat.min_eq_left hlong

/-- Witness for C4 as amended: a concrete payload with one `Sentence` node. -/
theorem c4_truncation_structured_path_witness :
    (fetch_law_data_core (.mk "ApplData" none [.mk "Sentence" (some "abc".toList) []])).1 =
      some ((trim (collapseWs
        (List.intercalate ['\n']
          (extractedTexts (.mk "ApplData" none [.mk "Sentence" (some "abc".toList) []]))))).take
            MAX_CHARS) :=
  (c4_truncation_structured_path _ (by decide) (by decide)).1

/-- C5: the date-filter behaviour of `filter_laws`.  With both date bounds
active and no text filter, the output is exactly the records with a known
promulgation date inside the inclusive interval; with any date bound
active, every surviving record has a known date satisfying each active
bound (so a `none`-dated record never passes); with no date bound and no
text filter, no constraint is imposed. -/
theorem c5_date_filtering (laws : List LawRow) :
    (∀ d1 d2 : Int, d1 ≤ d2 →
      filter_laws laws [] [] [] (some d1) (some d2) =
        laws.filter fun r =>
          match r.promDate with
          | some d => decide (d1 ≤ d) && decide (d ≤ d2)
          | none => false) ∧
    (∀ name_query num_query keyword_query date_from date_to r,
      r ∈ filter_laws laws name_query num_query keyword_query date_from date_to →
      date_from ≠ none ∨ date_to ≠ none →
      ∃ d, r.promDate = some d ∧
        (∀ x, date_from = some x → x ≤ d) ∧ (∀ y, date_to = some y → d ≤ y)) ∧
    filter_laws laws [] [] [] none none = laws := by
  refine ⟨?_, ?_, ?_⟩
  · intro d1 d2 _
    by_cases hl : laws = []
    · subst hl
      rfl
    · unfold filter_laws
      rw [if_neg hl]
      show ((laws.filter fun r =>
          match r.promDate with
          | some d => decide (d1 ≤ d)
          | none => false).filter fun r =>
          match r.promDate with
          | some d => decide (d ≤ d2)
          | none => false) = _
      rw [List.filter_filter]
      refine List.filter_congr ?_
      intro r _
      cases r.promDate with
      | none => rfl
      | some d => simp [Bool.and_comm]
  · intro name_query num_query keyword_query date_from date_to r hr hor
    by_cases hl : laws = []
    · subst hl
      simp only [filter_laws, if_pos rfl] at hr
      exact absurd hr (List.not_mem_nil r)
    · simp only [filter_laws, if_neg hl] at hr
      rcases date_from with _ | x
      · rcases date_to with _ | y
        · simp at hor
        · obtain ⟨-, hp⟩ := List.mem_filter.mp hr
          rcases hd : r.promDate with _ | d
          · rw [hd] at hp
            exact absurd hp Bool.false_ne_true
          · rw [hd] at hp
            refine ⟨d, rfl, ?_, ?_⟩
            · intro x hx
              cases hx
            · intro y' hy
              cases hy
              exact of_decide_eq_true hp
      · rcases date_to with _ | y
        · obtain ⟨-, hp⟩ := List.mem_filter.mp hr
          rcases hd : r.promDate with _ | d
          · rw [hd] at hp
            exact absurd hp Bool.false_ne_true
          · rw [hd] at hp
            refine ⟨d, rfl, ?_, ?_⟩
            · intro x' hx
              cases hx
              exact of_decide_eq_true hp
            · intro y hy
              cases hy
        · obtain ⟨hr2, hp2⟩ := List.mem_filter.mp hr
          obtain ⟨-, hp1⟩ := List.mem_filter.mp hr2
          rcases hd : r.promDate with _ | d
          · rw [hd] at hp1
            exact absurd hp1 Bool.false_ne_true
          · rw [hd] at hp1
            rw [hd] at hp2
            refine ⟨d, rfl, ?_, ?_⟩
            · intro x' hx
              cases hx
              exact of_decide_eq_true hp1
            · intro y' hy
              cases hy
              exact of_decide_eq_true hp2
  · by_cases hl : laws = []
    · subst hl
      rfl
    · simp [filter_laws, hl]

/-- C6: for every answer text containing a citation marker - an arbitrary
marker-free preamble, the fixed marker head, a newline-free content with
no stray closing bracket, the closing bracket and an arbitrary tail -
`extract_citations` returns `[]` when the stripped content is the literal
`なし` sentinel, and otherwise returns exactly the embedded
article-reference tokens of the stripped content, in source order with
duplicates preserved (`findArticles` is the source's token scanner, which
emits tokens left to right). -/
theorem c6_marker_extraction (p c t : List Char) (hp : '【' ∉ p)
    (hb : '】' ∉ c) (hn : '\n' ∉ c) (hne : trim c ≠ []) :
    extract_citations (p ++ (markerLit ++ (c ++ '】' :: t))) =
      if trim c = "なし".toList then [] else findArticles (trim c) := by
  rw [extract_citations, searchMarker_prepend p _ hp,
    searchMarker_at_marker c t hb hn hne]
  simp only [trim_idem]
  by_cases hna : trim c = "なし".toList
  · rw [if_pos hna, if_neg (by rw [hna]; simp)]
  · rw [if_neg hna, if_pos hna]

/-- Witness for C6: the spec's own example - a marker listing articles 3
and 5 yields exactly those two tokens in that order; duplicates of the
sentinel case are covered by the `なし` branch of the theorem. -/
theorem c6_marker_extraction_witness :
    extract_citations
        ("回答です。".toList ++ (markerLit ++ (" 第3条、第5条".toList ++ '】' :: "\n".toList))) =
      ["第3条".toList, "第5条".toList] := by
  rw [c6_marker_extraction _ _ _ (by decide) (by decide) (by decide) (by decide)]
  decide

/-- C7: `find_article_text` treats the title as literal content (the
embedding of `re.escape(article_title)` matches the title only character
by character).  It returns `none` exactly when the title does not occur in
the text; otherwise it returns the trimmed span that starts at the first
occurrence of the title and ends immediately before the next
article-title-shaped token - no such token starts anywhere in the span
after the title, so the following article's text is excluded - or extends
to the end of the text when no next boundary exists (the last-resort
suffix case: `post = []`). -/
theorem c7_locate_article (text title : List Char) (htext : text ≠ [])
    (htitle : title ≠ []) :
    (find_article_text text title = none ↔ ¬ title <:+: text) ∧
    (∀ span, find_article_text text title = some span →
      ∃ pre mid post, text = pre ++ mid ++ post ∧
        title <+: mid ∧
        (∀ j, j < pre.length → ¬ title <+: text.drop j) ∧
        span = trim mid ∧
        (∀ k, title.length ≤ k → k < mid.length → ¬ BoundaryTok (mid.drop k ++ post)) ∧
        (post = [] ∨ BoundaryTok post)) := by
  have hguard : ¬ (text = [] ∨ title = []) := by
    rintro (h | h)
    · exact htext h
    · exact htitle h
  cases hocc : firstOccur title text with
  | none =>
    have hres : find_article_text text title = none := by
      rw [find_article_text, if_neg hguard]
      simp only [regexSpan, hocc]
    refine ⟨?_, ?_⟩
    · rw [hres]
      constructor
      · intro _
        rw [infix_iff_exists_drop]
        rintro ⟨j, hj⟩
        exact ((firstOccur_none_iff title text).mp hocc) j hj
      · intro _
        rfl
    · intro span hspan
      rw [hres] at hspan
      cases hspan
  | some i =>
    obtain ⟨hi, hmin, hile⟩ := firstOccur_some_spec title text i hocc
    have hres : find_article_text text title =
        some (trim ((text.drop i).take
          (title.length + scanBoundary (text.drop (i + title.length))))) := by
      rw [find_article_text, if_neg hguard]
      simp only [regexSpan, hocc]
    obtain ⟨hbs1, hbs2, hbs3⟩ := scanBoundary_spec (text.drop (i + title.length))
    have htl : title.length ≤ (text.drop i).length := hi.length_le
    have hdl : (text.drop (i + title.length)).length = text.length - (i + title.length) :=
      List.length_drop _ _
    have hdl2 : (text.drop i).length = text.length - i := List.length_drop _ _
    have e1 : title.length ≤ text.length - i := by rw [← hdl2]; exact htl
    have e2 : scanBoundary (text.drop (i + title.length)) ≤
        text.length - (i + title.length) := by rw [← hdl]; exact hbs3
    have hLle : title.length + scanBoundary (text.drop (i + title.length)) ≤
        (text.drop i).length := by
      rw [hdl2]
      omega
    have hmidlen : ((text.drop i).take
        (title.length + scanBoundary (text.drop (i + title.length)))).length =
        title.length + scanBoundary (text.drop (i + title.length)) := by
      rw [List.length_take]
      exact Nat.min_eq_left hLle
    refine ⟨?_, ?_⟩
    · rw [hres]
      constructor
      · intro h
        cases h
      · intro hni
        exact absurd ((infix_iff_exists_drop title text).mpr ⟨i, hi⟩) hni
    · intro span hspan
      rw [hres] at hspan
      have hspan' : span = trim ((text.drop i).take
          (title.length + scanBoundary (text.drop (i + title.length)))) :=
        (Option.some_inj.mp hspan).symm
      refine ⟨text.take i,
        (text.drop i).take (title.length + scanBoundary (text.drop (i + title.length))),
        (text.drop i).drop (title.length + scanBoundary (text.drop (i + title.length))),
        ?_, ?_, ?_, hspan', ?_, ?_⟩
      · rw [List.append_assoc, List.take_append_drop, List.take_append_drop]
      · exact List.prefix_take_iff.mpr ⟨hi, by omega⟩
      · intro j hj
        rw [List.length_take, Nat.min_eq_left hile] at hj
        exact hmin j hj
      · intro k hk1 hk2
        rw [hmidlen] at hk2
        have hmp : ((text.drop i).take
              (title.length + scanBoundary (text.drop (i + title.length)))).drop k ++
            (text.drop i).drop
              (title.length + scanBoundary (text.drop (i + title.length))) =
            (text.drop i).drop k := by
          rw [← List.drop_append_of_le_length (by rw [hmidlen]; omega),
            List.take_append_drop]
        rw [hmp, List.drop_drop]
        have harith : i + k = (i + title.length) + (k - title.length) := by omega
        rw [harith, ← List.drop_drop]
        intro hB
        rw [← boundaryStart_iff] at hB
        rw [hbs1 (k - title.length) (by omega)] at hB
        cases hB
      · rw [List.drop_drop]
        have harith : i + (title.length + scanBoundary (text.drop (i + title.length))) =
            (i + title.length) + scanBoundary (text.drop (i + title.length)) := by omega
        rw [harith, ← List.drop_drop]
        rcases hbs2 with h | h
        · exact Or.inl h
        · exact Or.inr ((boundaryStart_iff _).mp h)

/-- Witness for C7: applying the theorem at a concrete text in which the
title does not occur settles the `none` direction. -/
theorem c7_locate_article_witness :
    find_article_text "第一条 すべて。".toList "第九条".toList = none :=
  (c7_locate_article "第一条 すべて。".toList "第九条".toList (by decide)
    (by decide)).1.mpr (by decide)

/-- C10 (implicit): an answer text with no citation marker of the fixed
form yields no citations: if the literal marker head `【引用元:` never
occurs, or if no closing `】` occurs anywhere (so no marker can close),
`extract_citations` returns `[]` - and, being a total function, it never
raises and never extracts tokens from outside a marker region. -/
theorem c10_no_marker_no_citations (s : List Char) :
    (¬ markerLit <:+: s → extract_citations s = []) ∧
    ('】' ∉ s → extract_citations s = []) := by
  constructor
  · intro h
    rw [extract_citations, searchMarker_eq_none s h]
  · intro h
    rw [extract_citations, searchMarker_none_of_no_bracket s h]

/-- Witness for C10: a concrete marker-free answer text. -/
theorem c10_no_marker_no_citations_witness :
    extract_citations "第3条についての本文です。".toList = [] :=
  (c10_no_marker_no_citations _).1 (by decide)

/-- Witness for C5: a concrete two-record list, dates 10 and 30, window
[5, 20]. -/
theorem c5_date_filtering_witness :
    filter_laws
        [{ lawId := none, lawName := none, lawNumber := none, promDate := some 10,
           lawTypeCode := "2", typeSortKey := 1 },
         { lawId := none, lawName := none, lawNumber := none, promDate := some 30,
           lawTypeCode := "3", typeSortKey := 2 }] [] [] [] (some 5) (some 20) =
      List.filter
        (fun r =>
          match r.promDate with
          | some d => decide ((5 : Int) ≤ d) && decide (d ≤ (20 : Int))
          | none => false)
        [{ lawId := none, lawName := none, lawNumber := none, promDate := some 10,
           lawTypeCode := "2", typeSortKey := 1 },
         { lawId := none, lawName := none, lawNumber := none, promDate := some 30,
           lawTypeCode := "3", typeSortKey := 2 }] :=
  (c5_date_filtering _).1 5 20 (by decide)

end EGov
